import Mathlib

/-
Verification development for the h-state reactive state container
(src/src/index.ts).  The reactive engine is embedded shallowly:

* JavaScript values are `JSVal`; object references are heap addresses, so
  JavaScript reference equality (the === used by every setter guard) is
  equality of addresses.
* The heap maps addresses to objects: plain data objects, the opaque-by
  policy kinds (Array, Date, RegExp), and reactive wrapper objects whose
  per-key accessor state (the captured `currentValue` closure variable and
  the branch chosen by the wrap-time `isNestedObject` test) is stored as
  `WProp`.
* The process-wide mutable module state of index.ts (reactiveCache,
  batchDepth, pendingUpdates, globalUid) together with the per-store state
  (internalState, the STATE_ID tag, the Signal value and its listener set)
  forms `Sys`.  Closure identity, which drives the `pendingUpdates` set
  deduplication, is modelled by a counter that allocates a fresh id each
  time `markUpdated` evaluates its arrow function, exactly as each JS
  evaluation of a function expression yields a fresh object.
* Listener invocation is logged in `fires` (one entry per listener call),
  and each `++globalUid` allocation is logged in `uidLog`.

Numbers are modelled as `Int` (the scenarios use integers only; NaN, which
is the one value where JS === differs from value equality, does not occur).
-/

/-- First-match association list lookup, the model of JS property access
and of `Map.get`/`WeakMap.get`. -/
def lookupK {κ α : Type} [DecidableEq κ] : List (κ × α) → κ → Option α
  | [], _ => none
  | (k, a) :: t, q => if q = k then some a else lookupK t q

/-- Update the first entry holding a key, the model of assigning through an
existing mutable slot. -/
def updateK {κ α : Type} [DecidableEq κ] : List (κ × α) → κ → α → List (κ × α)
  | [], _, _ => []
  | (k, a) :: t, q, b => if q = k then (q, b) :: t else (k, a) :: updateK t q b

/-- Remove every entry holding a key, the model of `Map.delete` /
`WeakMap.delete` (entries are unique per key in reachable states). -/
def eraseK {κ α : Type} [DecidableEq κ] : List (κ × α) → κ → List (κ × α)
  | [], _ => []
  | (k, a) :: t, q => if q = k then eraseK t q else (k, a) :: eraseK t q

/-- Positional list read, the model of indexing the process store list. -/
def getIdx {α : Type} : List α → Nat → Option α
  | [], _ => none
  | a :: _, 0 => some a
  | _ :: t, n + 1 => getIdx t n

/-- Positional list write. -/
def setIdx {α : Type} : List α → Nat → α → List α
  | [], _, _ => []
  | _ :: t, 0, b => b :: t
  | a :: t, n + 1, b => a :: setIdx t n b

/-- JavaScript values: `undefined`, `null`, booleans, numbers, strings and
object references (heap addresses).  `===` is `DecidableEq`. -/
inductive JSVal : Type where
  | vundef : JSVal
  | vnull : JSVal
  | vbool : Bool → JSVal
  | vnum : Int → JSVal
  | vstr : String → JSVal
  | vobj : Nat → JSVal
deriving DecidableEq, Repr

/-- Accessor state installed by `makeReactive` for one key: the branch
chosen by the wrap-time `isNestedObject` test and the captured
`currentValue` closure variable. -/
structure WProp : Type where
  nested : Bool
  cur : JSVal
deriving DecidableEq, Repr

/-- Heap objects: plain data objects, the opaque kinds recognised by the
`instanceof` tests, and reactive wrapper objects (which also remember the
`rootSignal`/`rootState` store index captured by their accessors). -/
inductive HObj : Type where
  | plainObj : List (String × JSVal) → HObj
  | arrObj : HObj
  | dateObj : HObj
  | regexpObj : HObj
  | wrapperObj : Nat → List (String × WProp) → HObj
deriving DecidableEq, Repr

/-- Per-store state: `internalState` (its string-keyed fields), the branch
flag chosen for each top-level accessor from the wrap-time kind of
`initial[key]`, the hidden `STATE_ID` tag, the Signal value, the Signal
listener set (ids in insertion order) and the log of listener calls. -/
structure StoreSt : Type where
  internal : List (String × JSVal)
  props : List (String × Bool)
  stateId : Nat
  sigValue : Nat
  listeners : List Nat
  fires : List Nat
deriving DecidableEq, Repr

/-- The process state: heap plus the module-level mutable state of
index.ts (`reactiveCache`, `batchDepth`, `pendingUpdates`, `globalUid`)
and the store list.  `uidLog` records each `++globalUid` allocation;
`closureCtr` allocates closure identities for the pending set. -/
structure Sys : Type where
  heap : List (Nat × HObj)
  nextAddr : Nat
  cache : List (Nat × Nat)
  stores : List StoreSt
  globalUid : Nat
  uidLog : List Nat
  batchDepth : Nat
  pending : List (Nat × Nat)
  closureCtr : Nat
deriving DecidableEq, Repr

/-- The `isNestedObject` test of index.ts (lines 121-126 and 304-309):
non-null, `typeof === "object"`, and not a Date, RegExp or Array. -/
def isNestedVal (st : Sys) : JSVal → Bool
  | .vobj a =>
    match lookupK st.heap a with
    | some (.plainObj _) => true
    | some (.wrapperObj _ _) => true
    | _ => false
  | _ => false

/-- Signal.set specialised to the version signal of store `i`: if the new
value differs from the current one, store it and invoke every listener in
set order (logged in `fires`); otherwise do nothing. -/
def signalSet (st : Sys) (i : Nat) (v : Nat) : Sys :=
  match getIdx st.stores i with
  | none => st
  | some s =>
    if s.sigValue = v then st
    else
      let s2 := { s with sigValue := v, fires := s.fires ++ s.listeners }
      { st with stores := setIdx st.stores i s2 }

/-- The body of the closure created by `markUpdated`: allocate
`++globalUid`, write it into the hidden STATE_ID field of store `i` and
call `signal.set` with it. -/
def runUpd (st : Sys) (i : Nat) : Sys :=
  let uid := st.globalUid + 1
  let st1 := { st with globalUid := uid, uidLog := st.uidLog ++ [uid] }
  let st2 :=
    match getIdx st1.stores i with
    | none => st1
    | some s => { st1 with stores := setIdx st1.stores i ({ s with stateId := uid }) }
  signalSet st2 i uid

/-- `scheduleUpdate(fn)`: when batching, add the closure (identified by
`cid`) to the pending set, deduplicated by closure identity; otherwise run
it immediately. -/
def scheduleUpdate (st : Sys) (cid : Nat) (i : Nat) : Sys :=
  if st.batchDepth > 0 then
    if (lookupK st.pending cid).isSome then st
    else { st with pending := st.pending ++ [(cid, i)] }
  else runUpd st i

/-- `markUpdated(state, signal)`: evaluate a fresh arrow function (a new
closure identity every call) and hand it to `scheduleUpdate`. -/
def markUpdated (st : Sys) (i : Nat) : Sys :=
  let cid := st.closureCtr + 1
  scheduleUpdate { st with closureCtr := cid } cid i

/-- `flushUpdates`: snapshot the pending set, clear it, and run every
snapshotted closure in insertion order. -/
def flushUpdates (st : Sys) : Sys :=
  if st.pending = [] then st
  else
    let snap := st.pending
    snap.foldl (fun s p => runUpd s p.2) { st with pending := [] }

/-- Entry half of `batch`: increment the nesting depth. -/
def batchEnter (st : Sys) : Sys :=
  { st with batchDepth := st.batchDepth + 1 }

/-- Exit half of `batch`: decrement the depth and flush when it reaches 0. -/
def batchExit (st : Sys) : Sys :=
  let d := st.batchDepth - 1
  let st1 := { st with batchDepth := d }
  if d = 0 then flushUpdates st1 else st1

/-- `batch(fn)` for a state-transforming body. -/
def batchRun (f : Sys → Sys) (st : Sys) : Sys :=
  batchExit (f (batchEnter st))

/-- One step of iterating the own enumerable properties of a wrapper
object during re-wrapping: `obj[key]` runs the installed getter (the
recursive read `rec`, which is `makeReactive` at the next fuel level, when
the key is in the nested branch), then the wrap-time flag for the new
wrapper is computed from the value just read. -/
def wrapStep (rec : Sys → Nat → JSVal → JSVal × Sys) (srcRoot : Nat)
    (acc : List (String × WProp) × Sys) (kp : String × WProp) :
    List (String × WProp) × Sys :=
  let r := if kp.2.nested then rec acc.2 srcRoot kp.2.cur else (kp.2.cur, acc.2)
  (acc.1 ++ [(kp.1, WProp.mk (isNestedVal r.2 r.1) r.1)], r.2)

/-- `makeReactive(obj, rootSignal, rootState)` with explicit recursion
fuel.  Primitives, null and Date/RegExp/Array references pass through; a
cached raw object returns its cached wrapper; otherwise a fresh wrapper is
built whose per-key accessor state captures the current value and the
wrap-time `isNestedObject` flag, and is cached under the raw address.
Iterating a wrapper object (possible when one is re-wrapped) reads each
property through its installed getter, which is where the recursion lives;
plain objects are read directly, with no recursion. -/
def makeReactive : Nat → Sys → Nat → JSVal → JSVal × Sys
  | 0, st, _, v => (v, st)
  | fuel + 1, st, root, v =>
    match v with
    | .vobj a =>
      match lookupK st.heap a with
      | some (.plainObj fields) =>
        (match lookupK st.cache a with
         | some w => (.vobj w, st)
         | none =>
           let wprops := fields.map (fun kv => (kv.1, WProp.mk (isNestedVal st kv.2) kv.2))
           let waddr := st.nextAddr
           let st2 := { st with
             heap := (waddr, HObj.wrapperObj root wprops) :: st.heap,
             nextAddr := waddr + 1,
             cache := (a, waddr) :: st.cache }
           (.vobj waddr, st2))
      | some (.wrapperObj srcRoot sprops) =>
        (match lookupK st.cache a with
         | some w => (.vobj w, st)
         | none =>
           let built := sprops.foldl
             (wrapStep (fun s r2 v2 => makeReactive fuel s r2 v2) srcRoot)
             ([], st)
           let waddr := built.2.nextAddr
           let st2 := { built.2 with
             heap := (waddr, HObj.wrapperObj root built.1) :: built.2.heap,
             nextAddr := waddr + 1,
             cache := (a, waddr) :: built.2.cache }
           (.vobj waddr, st2))
      | some HObj.arrObj => (v, st)
      | some HObj.dateObj => (v, st)
      | some HObj.regexpObj => (v, st)
      | none => (v, st)
    | _ => (v, st)

/-- The getter installed by `makeReactive` for key `k` of the wrapper at
address `a`: return the captured current value, passed through
`makeReactive` when the wrap-time branch was the nested one. -/
def readWrapperProp (fuel : Nat) (st : Sys) (a : Nat) (k : String) : JSVal × Sys :=
  match lookupK st.heap a with
  | some (.wrapperObj root props) =>
    match lookupK props k with
    | some p => if p.nested then makeReactive fuel st root p.cur else (p.cur, st)
    | none => (.vundef, st)
  | _ => (.vundef, st)

/-- The setter installed by `makeReactive`: no-op when the new value is
===-equal to the captured one; in the nested branch evict a replaced
object from the cache; update the captured closure variable; call
`markUpdated` against the captured root. -/
def writeWrapperProp (st : Sys) (a : Nat) (k : String) (v : JSVal) : Sys :=
  match lookupK st.heap a with
  | some (.wrapperObj root props) =>
    match lookupK props k with
    | some p =>
      if p.cur = v then st
      else
        let st1 :=
          if p.nested then
            match p.cur with
            | .vobj old => { st with cache := eraseK st.cache old }
            | _ => st
          else st
        let newProps := updateK props k (WProp.mk p.nested v)
        markUpdated { st1 with heap := (a, HObj.wrapperObj root newProps) :: st1.heap } root
    | none => st
  | _ => st

/-- The top-level getter installed by `createStore` for key `k` of store
`i`: read `internalState[key]` and, in the branch whose wrap-time
`initial[key]` was a nested object, pass it through `makeReactive`. -/
def readStoreProp (fuel : Nat) (st : Sys) (i : Nat) (k : String) : JSVal × Sys :=
  match getIdx st.stores i with
  | none => (.vundef, st)
  | some s =>
    match lookupK s.props k with
    | none => (.vundef, st)
    | some nested =>
      let value := (lookupK s.internal k).getD .vundef
      if nested then makeReactive fuel st i value else (value, st)

/-- The top-level setter installed by `createStore`: no-op when the new
value is ===-equal to `internalState[key]`; in the nested branch evict a
replaced object from the cache; write into `internalState`; call
`markUpdated`. -/
def writeStoreProp (st : Sys) (i : Nat) (k : String) (v : JSVal) : Sys :=
  match getIdx st.stores i with
  | none => st
  | some s =>
    match lookupK s.props k with
    | none => st
    | some nested =>
      let oldValue := (lookupK s.internal k).getD .vundef
      if oldValue = v then st
      else
        let st1 :=
          if nested then
            match oldValue with
            | .vobj old => { st with cache := eraseK st.cache old }
            | _ => st
          else st
        let s2 := { s with internal := updateK s.internal k v }
        let st2 := { st1 with stores := setIdx st1.stores i s2 }
        markUpdated st2 i

/-- `$update()`: unconditionally `markUpdated`. -/
def updateStore (st : Sys) (i : Nat) : Sys :=
  markUpdated st i

/-- `$merge(partial)`: one `batch` call around per-key assignment through
the store setters. -/
def mergeStore (st : Sys) (i : Nat) (kvs : List (String × JSVal)) : Sys :=
  batchRun (fun s => kvs.foldl (fun s2 kv => writeStoreProp s2 i kv.1 kv.2) s) st

/-- Fuel given to getters by the program interpreter; no scenario in this
file nests deeper than this. -/
def getterFuel : Nat := 64

/-- Client operations on the process: top-level and wrapper property reads
and writes, `$update`, `$merge`, and the two halves of `batch`. -/
inductive Instr : Type where
  | swrite : Nat → String → JSVal → Instr
  | wwrite : Nat → String → JSVal → Instr
  | sread : Nat → String → Instr
  | wread : Nat → String → Instr
  | supdate : Nat → Instr
  | smerge : Nat → List (String × JSVal) → Instr
  | bbegin : Instr
  | bend : Instr
deriving DecidableEq, Repr

/-- One step of the client-visible semantics. -/
def runInstr (st : Sys) : Instr → Sys
  | .swrite i k v => writeStoreProp st i k v
  | .wwrite a k v => writeWrapperProp st a k v
  | .sread i k => (readStoreProp getterFuel st i k).2
  | .wread a k => (readWrapperProp getterFuel st a k).2
  | .supdate i => updateStore st i
  | .smerge i kvs => mergeStore st i kvs
  | .bbegin => batchEnter st
  | .bend => batchExit st

/-- Run a straight-line client program. -/
def runProg (st : Sys) (p : List Instr) : Sys :=
  p.foldl runInstr st

/-- The spread merge `{...initial, ...restored}`: keys of `initial` in
order with restored values winning, followed by restored-only keys. -/
def spreadMerge (initial restored : List (String × JSVal)) : List (String × JSVal) :=
  initial.map (fun kv => (kv.1, (lookupK restored kv.1).getD kv.2))
    ++ restored.filter (fun kv => (lookupK initial kv.1).isNone)

/-- The store-building tail of `createStore`: merge any restored snapshot
over the initial state, build `internalState` with the STATE_ID tag at 0,
instantiate the signal at 0, and install one accessor pair per key of
`initial` whose branch is fixed by the wrap-time kind of `initial[key]`. -/
def mkStore (st : Sys) (initial : List (String × JSVal))
    (restored : Option (List (String × JSVal))) : Sys :=
  let merged := match restored with
    | some r => spreadMerge initial r
    | none => initial
  let newStore : StoreSt :=
    { internal := merged,
      props := initial.map (fun kv => (kv.1, isNestedVal st kv.2)),
      stateId := 0, sigValue := 0, listeners := [], fires := [] }
  { st with stores := st.stores ++ [newStore] }

/-- The persistence backend (localStorage) as observable behaviour; each
operation may throw, modelled by `Except`. `available` is the result of
the guarded `isLocalStorageAvailable` probe. -/
structure PBackend : Type where
  available : Bool
  getItem : String → Except String (Option String)
  setItem : String → String → Except String Unit
  removeItem : String → Except String Unit

/-- The resolved persistence configuration: enabled flag, key, and the
pluggable serializer pair (each may throw). Errors routed to `onError`
are returned as a list by the operations below. -/
structure PCfg : Type where
  enabled : Bool
  key : String
  serialize : List (String × JSVal) → Except String String
  deserialize : String → Except String (List (String × JSVal))

/-- The body of the restore try-block in `createStore`: read the stored
blob (a throw propagates); a truthy blob is deserialized (a throw
propagates) into the restored state. -/
def restoreBody (b : PBackend) (cfg : PCfg) : Except String (Option (List (String × JSVal))) :=
  match b.getItem cfg.key with
  | .error e => .error e
  | .ok none => .ok none
  | .ok (some s) =>
    if s = "" then .ok none
    else
      match cfg.deserialize s with
      | .error e => .error e
      | .ok m => .ok (some m)

/-- The restore path of `createStore`: guarded by the enabled flag and
backend availability, with the try-catch routing any failure to
`onError` (second component) and leaving the restored state `none`. -/
def runRestore (b : PBackend) (cfg : PCfg) :
    Option (List (String × JSVal)) × List String :=
  if cfg.enabled && b.available then
    match restoreBody b cfg with
    | .ok r => (r, [])
    | .error e => (none, [e])
  else (none, [])

/-- `createStore` with persistence: restore (never throwing), then build
the store from the merged state; errors are the onError log. -/
def createStoreModel (st : Sys) (initial : List (String × JSVal))
    (b : PBackend) (cfg : PCfg) : Sys × List String :=
  let r := runRestore b cfg
  (mkStore st initial r.1, r.2)

/-- The state extraction inside `saveToStorage`: only the keys present in
the original `initial` shape, read from `internalState`. -/
def stateToSave (internal : List (String × JSVal)) (initKeys : List String) :
    List (String × JSVal) :=
  initKeys.map (fun k => (k, (lookupK internal k).getD .vundef))

/-- The body of the `saveToStorage` try-block: serialize the extracted
state (a throw propagates) and write it under the configured key. -/
def saveBody (b : PBackend) (cfg : PCfg) (internal : List (String × JSVal))
    (initKeys : List String) : Except String Unit :=
  match cfg.serialize (stateToSave internal initKeys) with
  | .error e => .error e
  | .ok s => b.setItem cfg.key s

/-- `saveToStorage` (also `$persist`): no-op when disabled or the backend
is unavailable; otherwise run the body with the try-catch routing any
failure to `onError` (the returned list). -/
def runSave (b : PBackend) (cfg : PCfg) (internal : List (String × JSVal))
    (initKeys : List String) : List String :=
  if cfg.enabled && b.available then
    match saveBody b cfg internal initKeys with
    | .ok _ => []
    | .error e => [e]
  else []

/-- `$clearPersist`: guarded only by backend availability; `removeItem`
failures are routed to `onError`. -/
def runClear (b : PBackend) (cfg : PCfg) : List String :=
  if b.available then
    match b.removeItem cfg.key with
    | .ok _ => []
    | .error e => [e]
  else []

/-- A top-level store write followed by the persistence save that the
signal listener triggers (debounce 0): the pair of the new process state
and the onError log of the save. -/
def writeThenPersist (b : PBackend) (cfg : PCfg) (st : Sys) (i : Nat)
    (k : String) (v : JSVal) (initKeys : List String) : Sys × List String :=
  let st1 := writeStoreProp st i k v
  let internal1 := match getIdx st1.stores i with
    | some s => s.internal
    | none => []
  (st1, runSave b cfg internal1 initKeys)

/-- A `Signal<T>` on its own: current value, listener ids in set insertion
order, and the log of listener invocations. -/
structure Sig (α : Type) : Type where
  value : α
  listeners : List Nat
  callLog : List Nat
deriving DecidableEq, Repr

/-- `Signal.set`: store and notify only when the new value differs. -/
def sigSet {α : Type} [DecidableEq α] (s : Sig α) (v : α) : Sig α :=
  if s.value = v then s
  else { s with value := v, callLog := s.callLog ++ s.listeners }

/-- `Signal.subscribe`: add the listener to the set (idempotent). -/
def sigSubscribe {α : Type} (s : Sig α) (l : Nat) : Sig α :=
  if l ∈ s.listeners then s else { s with listeners := s.listeners ++ [l] }

/-- The unsubscribe closure returned by `Signal.subscribe`: delete exactly
that listener from the set. -/
def sigUnsub {α : Type} (s : Sig α) (l : Nat) : Sig α :=
  { s with listeners := s.listeners.erase l }

/-- The plain-data view of a heap address: its fields when it holds a
plain (raw) object, `none` otherwise. This is what serialization reads. -/
def plainView (st : Sys) (b : Nat) : Option (List (String × JSVal)) :=
  match lookupK st.heap b with
  | some (.plainObj fs) => some fs
  | _ => none

/-- The per-store view of `internalState` (its string-keyed fields). -/
def internalView (st : Sys) (i : Nat) : Option (List (String × JSVal)) :=
  (getIdx st.stores i).map StoreSt.internal

/-- The tree a JSON-style serializer reads from a value: plain objects are
traversed through the heap, everything else is kept as a leaf. -/
inductive SnapTree : Type where
  | leaf : JSVal → SnapTree
  | node : List (String × SnapTree) → SnapTree

/-- Deep read of a value through the heap, as `JSON.stringify` does inside
`saveToStorage` (with fuel, as arbitrary heaps may contain cycles). -/
def snapshotVal : Nat → Sys → JSVal → SnapTree
  | 0, _, v => .leaf v
  | fuel + 1, st, v =>
    match v with
    | .vobj a =>
      match plainView st a with
      | some fs => .node (fs.map (fun kv => (kv.1, snapshotVal fuel st kv.2)))
      | none => .leaf v
    | _ => .leaf v

/-- What `saveToStorage` would serialize for store `i`: the keys of the
original initial shape read from `internalState` and deep-read through
the heap. -/
def persistSnapshot (fuel : Nat) (st : Sys) (i : Nat) (initKeys : List String) :
    List (String × SnapTree) :=
  match getIdx st.stores i with
  | none => []
  | some s => (stateToSave s.internal initKeys).map (fun kv => (kv.1, snapshotVal fuel st kv.2))

/-- A sequence of writes through nested reactive wrappers. -/
def wwrites (st : Sys) (ws : List (Nat × String × JSVal)) : Sys :=
  ws.foldl (fun s w => writeWrapperProp s w.1 w.2.1 w.2.2) st

/-- The uid allocation discipline: the allocation log is strictly
increasing, every logged id is at most the current counter, and every
version ever written into a store (STATE_ID tag or signal value) is at
most the current counter. -/
def GoodUid (st : Sys) : Prop :=
  st.uidLog.Pairwise (· < ·) ∧
  (∀ x ∈ st.uidLog, x ≤ st.globalUid) ∧
  (∀ s ∈ st.stores, s.stateId ≤ st.globalUid ∧ s.sigValue ≤ st.globalUid)

instance (st : Sys) : Decidable (GoodUid st) := by
  unfold GoodUid
  infer_instance

/-- A two-key primitive store with one subscriber (id 7). -/
def storeAB : StoreSt :=
  { internal := [("a", JSVal.vnum 0), ("b", JSVal.vnum 0)],
    props := [("a", false), ("b", false)],
    stateId := 0, sigValue := 0, listeners := [7], fires := [] }

/-- A store over a two-key primitive state with one subscriber, used by
the batching scenarios. -/
def stAB : Sys :=
  { heap := [], nextAddr := 0, cache := [], stores := [storeAB],
    globalUid := 0, uidLog := [], batchDepth := 0, pending := [], closureCtr := 0 }

/-- A heap with two raw plain objects: address 0 holds an object whose key
starts out null, address 1 holds a plain nested mapping. -/
def stC3 : Sys :=
  { heap := [(0, HObj.plainObj [("k", JSVal.vnull)]), (1, HObj.plainObj [("q", JSVal.vnum 1)])],
    nextAddr := 2, cache := [],
    stores := [{ internal := [], props := [], stateId := 0, sigValue := 0,
                 listeners := [], fires := [] }],
    globalUid := 0, uidLog := [], batchDepth := 0, pending := [], closureCtr := 0 }

/-- Wrapping the object at address 0 of `stC3`. -/
def stC3w : JSVal × Sys := makeReactive 5 stC3 0 (JSVal.vobj 0)

/-- After the wrap, assign the plain nested mapping at address 1 to the
key whose wrap-time value was null. -/
def stC3b : Sys := writeWrapperProp stC3w.2 2 "k" (JSVal.vobj 1)

/-- Every address stored in the heap is below the allocation cursor. -/
def HeapFresh (st : Sys) : Prop :=
  ∀ p ∈ st.heap, p.1 < st.nextAddr

instance (st : Sys) : Decidable (HeapFresh st) := by
  unfold HeapFresh
  infer_instance

/-- A store holding one nested object (`user`, a raw plain object at
address 0) with one subscriber. -/
def stNest : Sys :=
  { heap := [(0, HObj.plainObj [("nm", JSVal.vstr "John")])], nextAddr := 1, cache := [],
    stores := [{ internal := [("user", JSVal.vobj 0)], props := [("user", true)],
                 stateId := 0, sigValue := 0, listeners := [7], fires := [] }],
    globalUid := 0, uidLog := [], batchDepth := 0, pending := [], closureCtr := 0 }

/-- The empty process state. -/
def sys0 : Sys :=
  { heap := [], nextAddr := 0, cache := [], stores := [], globalUid := 0,
    uidLog := [], batchDepth := 0, pending := [], closureCtr := 0 }

/-- A backend whose stored blob is the string "five". -/
def demoBackend : PBackend :=
  { available := true, getItem := fun _ => .ok (some "five"),
    setItem := fun _ _ => .ok (), removeItem := fun _ => .ok () }

/-- A backend whose every operation throws. -/
def failBackend : PBackend :=
  { available := true, getItem := fun _ => .error "boom",
    setItem := fun _ _ => .error "boom", removeItem := fun _ => .error "boom" }

/-- A persistence configuration whose deserializer understands exactly the
blob "five" (as the snapshot holding `count = 5`). -/
def demoCfg : PCfg :=
  { enabled := true, key := "k",
    serialize := fun _ => .ok "s",
    deserialize := fun s => if s = "five" then .ok [("count", JSVal.vnum 5)] else .error "bad" }

/-- The two-key initial state of the restore scenario. -/
def demoInitial : List (String × JSVal) :=
  [("count", JSVal.vnum 0), ("name", JSVal.vstr "x")]

theorem lookupK_cons_self {κ α : Type} [DecidableEq κ] (k : κ) (a : α) (t : List (κ × α)) :
    lookupK ((k, a) :: t) k = some a := by
  simp [lookupK]

theorem lookupK_cons_ne {κ α : Type} [DecidableEq κ] {q k : κ} (a : α) (t : List (κ × α))
    (h : q ≠ k) : lookupK ((k, a) :: t) q = lookupK t q := by
  simp [lookupK, h]

theorem lookupK_mem {κ α : Type} [DecidableEq κ] :
    ∀ {l : List (κ × α)} {k : κ} {a : α}, lookupK l k = some a → (k, a) ∈ l := by
  intro l
  induction l with
  | nil => intro k a h; simp [lookupK] at h
  | cons p t ih =>
    intro k a h
    rw [show p = (p.1, p.2) from rfl] at h
    unfold lookupK at h
    by_cases hk : k = p.1
    · subst hk
      simp at h
      subst h
      exact List.mem_cons_self _ _
    · simp [hk] at h
      exact List.mem_cons_of_mem _ (ih h)

theorem lookupK_map {κ α β : Type} [DecidableEq κ] (g : κ → α → β) :
    ∀ (l : List (κ × α)) (q : κ),
      lookupK (l.map (fun kv => (kv.1, g kv.1 kv.2))) q = (lookupK l q).map (g q) := by
  intro l
  induction l with
  | nil => intro q; rfl
  | cons p t ih =>
    intro q
    by_cases hk : q = p.1
    · subst hk
      simp [lookupK]
    · simp [lookupK, hk, ih]

theorem lookupK_append_left {κ α : Type} [DecidableEq κ] {l1 : List (κ × α)}
    (l2 : List (κ × α)) {q : κ} {a : α} (h : lookupK l1 q = some a) :
    lookupK (l1 ++ l2) q = some a := by
  induction l1 with
  | nil => simp [lookupK] at h
  | cons p t ih =>
    rcases p with ⟨k, b⟩
    by_cases hk : q = k
    · subst hk
      simp [lookupK] at h ⊢
      exact h
    · rw [List.cons_append, lookupK_cons_ne b (t ++ l2) hk]
      exact ih (by simpa [lookupK, hk] using h)

theorem lookupK_append_right {κ α : Type} [DecidableEq κ] {l1 : List (κ × α)}
    (l2 : List (κ × α)) {q : κ} (h : lookupK l1 q = none) :
    lookupK (l1 ++ l2) q = lookupK l2 q := by
  induction l1 with
  | nil => rfl
  | cons p t ih =>
    rcases p with ⟨k, b⟩
    by_cases hk : q = k
    · simp [lookupK, hk] at h
    · rw [List.cons_append, lookupK_cons_ne b (t ++ l2) hk]
      exact ih (by simpa [lookupK, hk] using h)

theorem lookupK_updateK_self {κ α : Type} [DecidableEq κ] :
    ∀ {l : List (κ × α)} {q : κ} {a : α} (b : α),
      lookupK l q = some a → lookupK (updateK l q b) q = some b := by
  intro l
  induction l with
  | nil => intro q a b h; simp [lookupK] at h
  | cons p t ih =>
    intro q a b h
    rw [show p = (p.1, p.2) from rfl] at h ⊢
    unfold lookupK at h
    unfold updateK
    by_cases hk : q = p.1
    · simp [hk, lookupK]
    · simp [hk] at h ⊢
      simpa [lookupK, hk] using ih b h

theorem lookupK_filter_none {κ α : Type} [DecidableEq κ] (p : κ × α → Bool) :
    ∀ {l : List (κ × α)} {q : κ}, lookupK l q = none → lookupK (l.filter p) q = none := by
  intro l
  induction l with
  | nil => intro q _; rfl
  | cons kv t ih =>
    intro q h
    unfold lookupK at h
    by_cases hk : q = kv.1
    · rw [show kv = (kv.1, kv.2) from rfl] at h
      simp [hk] at h
    · rw [show kv = (kv.1, kv.2) from rfl] at h
      simp [hk] at h
      rw [List.filter]
      cases p kv with
      | false => exact ih h
      | true =>
        rw [show kv = (kv.1, kv.2) from rfl]
        rw [lookupK_cons_ne _ _ hk]
        exact ih h

theorem getIdx_setIdx_self {α : Type} :
    ∀ {l : List α} {i : Nat} {a : α} (b : α),
      getIdx l i = some a → getIdx (setIdx l i b) i = some b := by
  intro l
  induction l with
  | nil => intro i a b h; simp [getIdx] at h
  | cons x t ih =>
    intro i a b h
    cases i with
    | zero => rfl
    | succ n => exact ih b h

theorem getIdx_setIdx_ne {α : Type} :
    ∀ {l : List α} {i j : Nat} (b : α), i ≠ j → getIdx (setIdx l i b) j = getIdx l j := by
  intro l
  induction l with
  | nil => intro i j b _; cases i <;> rfl
  | cons x t ih =>
    intro i j b hij
    cases i with
    | zero =>
      cases j with
      | zero => exact absurd rfl hij
      | succ m => rfl
    | succ n =>
      cases j with
      | zero => rfl
      | succ m => exact ih b (fun h => hij (by rw [h]))

theorem mem_setIdx {α : Type} :
    ∀ {l : List α} {i : Nat} {b s : α}, s ∈ setIdx l i b → s ∈ l ∨ s = b := by
  intro l
  induction l with
  | nil => intro i b s h; simp [setIdx] at h
  | cons x t ih =>
    intro i b s h
    cases i with
    | zero =>
      rcases List.mem_cons.mp h with h1 | h1
      · exact Or.inr h1
      · exact Or.inl (List.mem_cons_of_mem _ h1)
    | succ n =>
      rcases List.mem_cons.mp h with h1 | h1
      · exact Or.inl (h1 ▸ List.mem_cons_self _ _)
      · rcases ih h1 with h2 | h2
        · exact Or.inl (List.mem_cons_of_mem _ h2)
        · exact Or.inr h2

theorem foldl_inv {α β : Type} (f : β → α → β) (P : β → Prop)
    (hf : ∀ b a, P b → P (f b a)) :
    ∀ (l : List α) (b : β), P b → P (l.foldl f b) := by
  intro l
  induction l with
  | nil => intro b h; exact h
  | cons x t ih => intro b h; exact ih (f b x) (hf b x h)

theorem signalSet_sched (st : Sys) (i v : Nat) :
    (signalSet st i v).heap = st.heap ∧ (signalSet st i v).cache = st.cache ∧
    (signalSet st i v).nextAddr = st.nextAddr ∧
    (signalSet st i v).batchDepth = st.batchDepth ∧
    (signalSet st i v).pending = st.pending ∧
    (signalSet st i v).closureCtr = st.closureCtr ∧
    (signalSet st i v).globalUid = st.globalUid ∧
    (signalSet st i v).uidLog = st.uidLog := by
  unfold signalSet
  split
  · exact ⟨rfl, rfl, rfl, rfl, rfl, rfl, rfl, rfl⟩
  · split
    · exact ⟨rfl, rfl, rfl, rfl, rfl, rfl, rfl, rfl⟩
    · exact ⟨rfl, rfl, rfl, rfl, rfl, rfl, rfl, rfl⟩

theorem runUpd_mem (st : Sys) (i : Nat) :
    (runUpd st i).heap = st.heap ∧ (runUpd st i).cache = st.cache ∧
    (runUpd st i).nextAddr = st.nextAddr ∧
    (runUpd st i).batchDepth = st.batchDepth ∧
    (runUpd st i).pending = st.pending ∧
    (runUpd st i).closureCtr = st.closureCtr := by
  simp only [runUpd, signalSet]
  repeat' split
  all_goals exact ⟨rfl, rfl, rfl, rfl, rfl, rfl⟩

theorem markUpdated_mem (st : Sys) (i : Nat) :
    (markUpdated st i).heap = st.heap ∧ (markUpdated st i).cache = st.cache ∧
    (markUpdated st i).nextAddr = st.nextAddr := by
  simp only [markUpdated, scheduleUpdate]
  split
  · split
    · exact ⟨rfl, rfl, rfl⟩
    · exact ⟨rfl, rfl, rfl⟩
  · rcases runUpd_mem { st with closureCtr := st.closureCtr + 1 } i with ⟨h1, h2, h3, _⟩
    exact ⟨h1, h2, h3⟩

theorem getIdx_internal_setIdx (l : List StoreSt) (i : Nat) (s s2 : StoreSt)
    (hs : getIdx l i = some s) (hint : s2.internal = s.internal) :
    ∀ j, (getIdx (setIdx l i s2) j).map StoreSt.internal = (getIdx l j).map StoreSt.internal := by
  intro j
  by_cases hij : i = j
  · subst hij
    rw [getIdx_setIdx_self s2 hs, hs]
    simp [hint]
  · rw [getIdx_setIdx_ne s2 hij]

theorem signalSet_internal (st : Sys) (i v : Nat) : ∀ j,
    (getIdx (signalSet st i v).stores j).map StoreSt.internal =
      (getIdx st.stores j).map StoreSt.internal := by
  intro j
  unfold signalSet
  split
  · rfl
  case h_2 s heq =>
    split
    · rfl
    · exact getIdx_internal_setIdx st.stores i s
        ({ s with sigValue := v, fires := s.fires ++ s.listeners }) heq rfl j

theorem runUpd_internal (st : Sys) (i : Nat) : ∀ j,
    (getIdx (runUpd st i).stores j).map StoreSt.internal =
      (getIdx st.stores j).map StoreSt.internal := by
  intro j
  cases hg : getIdx st.stores i with
  | none =>
    simp only [runUpd, hg]
    exact signalSet_internal _ _ _ _
  | some s =>
    simp only [runUpd, hg]
    calc (getIdx (signalSet
            { st with globalUid := st.globalUid + 1, uidLog := st.uidLog ++ [st.globalUid + 1],
                      stores := setIdx st.stores i ({ s with stateId := st.globalUid + 1 }) }
            i (st.globalUid + 1)).stores j).map StoreSt.internal
        = (getIdx (setIdx st.stores i ({ s with stateId := st.globalUid + 1 })) j).map
            StoreSt.internal := signalSet_internal _ _ _ _
      _ = (getIdx st.stores j).map StoreSt.internal :=
            getIdx_internal_setIdx st.stores i s ({ s with stateId := st.globalUid + 1 }) hg rfl j

theorem scheduleUpdate_internal (st : Sys) (cid i : Nat) : ∀ j,
    (getIdx (scheduleUpdate st cid i).stores j).map StoreSt.internal =
      (getIdx st.stores j).map StoreSt.internal := by
  intro j
  unfold scheduleUpdate
  split
  · split
    · rfl
    · rfl
  · exact runUpd_internal st i j

theorem markUpdated_internal (st : Sys) (i : Nat) : ∀ j,
    (getIdx (markUpdated st i).stores j).map StoreSt.internal =
      (getIdx st.stores j).map StoreSt.internal := by
  intro j
  exact scheduleUpdate_internal { st with closureCtr := st.closureCtr + 1 } (st.closureCtr + 1) i j

theorem markUpdated_plainView (st : Sys) (i : Nat) : ∀ b,
    plainView (markUpdated st i) b = plainView st b := by
  intro b
  unfold plainView
  rw [(markUpdated_mem st i).1]

theorem writeWrapperProp_frame (st : Sys) (a : Nat) (k : String) (v : JSVal) :
    (∀ j, (getIdx (writeWrapperProp st a k v).stores j).map StoreSt.internal =
        (getIdx st.stores j).map StoreSt.internal) ∧
    (∀ b, plainView (writeWrapperProp st a k v) b = plainView st b) := by
  unfold writeWrapperProp
  split
  case h_1 root props heq =>
    split
    case h_1 p hp =>
      split
      · exact ⟨fun j => rfl, fun b => rfl⟩
      · set st1 := (if p.nested then
            match p.cur with
            | .vobj old => { st with cache := eraseK st.cache old }
            | _ => st
          else st) with hst1
        have hheap : st1.heap = st.heap := by
          rw [hst1]
          split
          · split <;> rfl
          · rfl
        have hstores : st1.stores = st.stores := by
          rw [hst1]
          split
          · split <;> rfl
          · rfl
        constructor
        · intro j
          rw [markUpdated_internal]
          show (getIdx st1.stores j).map StoreSt.internal = (getIdx st.stores j).map StoreSt.internal
          rw [hstores]
        · intro b
          rw [markUpdated_plainView]
          show plainView { st1 with heap := (a, HObj.wrapperObj root (updateK props k (WProp.mk p.nested v))) :: st1.heap } b = plainView st b
          unfold plainView
          by_cases hab : b = a
          · subst hab
            rw [show (lookupK ((b, HObj.wrapperObj root (updateK props k (WProp.mk p.nested v))) :: st1.heap) b) = some (HObj.wrapperObj root (updateK props k (WProp.mk p.nested v))) from lookupK_cons_self _ _ _]
            rw [heq]
          · rw [lookupK_cons_ne _ _ hab, hheap]
    case h_2 => exact ⟨fun j => rfl, fun b => rfl⟩
  all_goals exact ⟨fun j => rfl, fun b => rfl⟩

theorem mapSnd_congr {β : Type} (f g : JSVal → β) (h : ∀ v, f v = g v) :
    ∀ (l : List (String × JSVal)),
      l.map (fun kv => (kv.1, f kv.2)) = l.map (fun kv => (kv.1, g kv.2)) := by
  intro l
  induction l with
  | nil => rfl
  | cons kv t iht => simp [h kv.2, iht]

theorem snapshotVal_congr : ∀ (fuel : Nat) (st1 st2 : Sys),
    (∀ b, plainView st1 b = plainView st2 b) →
    ∀ v, snapshotVal fuel st1 v = snapshotVal fuel st2 v := by
  intro fuel
  induction fuel with
  | zero => intro st1 st2 h v; rfl
  | succ n ih =>
    intro st1 st2 h v
    cases v with
    | vobj a =>
      simp only [snapshotVal]
      rw [h a]
      cases hp : plainView st2 a with
      | none => rfl
      | some fs =>
        simp only []
        congr 1
        exact mapSnd_congr (snapshotVal n st1) (snapshotVal n st2) (ih st1 st2 h) fs
    | vundef => rfl
    | vnull => rfl
    | vbool b => rfl
    | vnum n2 => rfl
    | vstr s => rfl

/-- C10: assigning through a setter of a nested reactive wrapper updates
only the wrapper's captured closure variable: for any sequence of writes
through wrappers, every store's `internalState` fields are unchanged,
every raw plain object in the heap is unchanged, and consequently the
snapshot that `saveToStorage` serializes (the original keys read from
`internalState` and deep-read through the heap) is exactly the one that
would have been saved before the writes. -/
theorem wrapper_writes_leave_internal_state (ws : List (Nat × String × JSVal)) (st : Sys) :
    (∀ j, (getIdx (wwrites st ws).stores j).map StoreSt.internal =
        (getIdx st.stores j).map StoreSt.internal) ∧
    (∀ b, plainView (wwrites st ws) b = plainView st b) ∧
    (∀ fuel i keys, persistSnapshot fuel (wwrites st ws) i keys = persistSnapshot fuel st i keys) := by
  have main : (∀ j, (getIdx (wwrites st ws).stores j).map StoreSt.internal =
        (getIdx st.stores j).map StoreSt.internal) ∧
      (∀ b, plainView (wwrites st ws) b = plainView st b) := by
    unfold wwrites
    refine foldl_inv _
      (fun s2 => (∀ j, (getIdx s2.stores j).map StoreSt.internal =
          (getIdx st.stores j).map StoreSt.internal) ∧
        (∀ b, plainView s2 b = plainView st b)) ?_ ws st ⟨fun j => rfl, fun b => rfl⟩
    intro s2 w hw
    rcases hw with ⟨hi, hp⟩
    constructor
    · intro j
      rw [(writeWrapperProp_frame s2 w.1 w.2.1 w.2.2).1 j]
      exact hi j
    · intro b
      rw [(writeWrapperProp_frame s2 w.1 w.2.1 w.2.2).2 b]
      exact hp b
  rcases main with ⟨hi, hp⟩
  refine ⟨hi, hp, ?_⟩
  intro fuel i keys
  have h := hi i
  unfold persistSnapshot
  cases h1 : getIdx st.stores i with
  | none =>
    cases h2 : getIdx (wwrites st ws).stores i with
    | none => rfl
    | some s2 =>
      rw [h1, h2] at h
      simp at h
  | some s =>
    cases h2 : getIdx (wwrites st ws).stores i with
    | none =>
      rw [h1, h2] at h
      simp at h
    | some s2 =>
      rw [h1, h2] at h
      have h3 : s2.internal = s.internal := Option.some.inj h
      show (stateToSave s2.internal keys).map (fun kv => (kv.1, snapshotVal fuel (wwrites st ws) kv.2))
        = (stateToSave s.internal keys).map (fun kv => (kv.1, snapshotVal fuel st kv.2))
      rw [h3]
      exact mapSnd_congr (snapshotVal fuel (wwrites st ws)) (snapshotVal fuel st)
        (snapshotVal_congr fuel _ _ hp) (stateToSave s.internal keys)

/-- C4: assigning a property the value it currently holds (value equality
for primitives, reference --- address --- equality for objects, both being
`=` on `JSVal`) is a no-op: for top-level store accessors and for nested
wrapper accessors alike, the process state is completely unchanged, so in
particular zero listener invocations are added to any fire log. -/
theorem noop_write_on_equal_value (st : Sys) :
    (∀ (i : Nat) (k : String) (v : JSVal) (s : StoreSt) (flag : Bool),
      getIdx st.stores i = some s → lookupK s.props k = some flag →
      lookupK s.internal k = some v → writeStoreProp st i k v = st) ∧
    (∀ (a : Nat) (k : String) (root : Nat) (props : List (String × WProp)) (p : WProp),
      lookupK st.heap a = some (HObj.wrapperObj root props) →
      lookupK props k = some p → writeWrapperProp st a k p.cur = st) := by
  constructor
  · intro i k v s flag hs hp hv
    simp [writeStoreProp, hs, hp, hv]
  · intro a k root props p hh hp
    simp [writeWrapperProp, hh, hp]

/-- Witness for C4 at the two-key store and at a concrete wrapper: writing
`a = 0` to a store already holding 0, and rewriting the wrapper key with
the exact object reference it captured, both leave the state untouched. -/
theorem noop_write_on_equal_value_witness :
    writeStoreProp stAB 0 "a" (JSVal.vnum 0) = stAB ∧
    writeWrapperProp stC3b 2 "k" (WProp.mk false (JSVal.vobj 1)).cur = stC3b :=
  ⟨(noop_write_on_equal_value stAB).1 0 "a" (JSVal.vnum 0) storeAB false (by decide) (by decide) (by decide),
   (noop_write_on_equal_value stC3b).2 2 "k" 0 [("k", WProp.mk false (JSVal.vobj 1))]
     (WProp.mk false (JSVal.vobj 1)) (by decide) (by decide)⟩

/-- C6: `Signal.set(v)` stores `v` and synchronously invokes every current
listener, in set order, exactly when `v` differs from the stored value,
and does nothing otherwise; `subscribe` registers idempotently through set
semantics and the returned closure removes exactly that listener (so
subscribing a fresh listener and then running its unsubscribe closure
restores the signal exactly). -/
theorem signal_contract {α : Type} [DecidableEq α] (s : Sig α) (v : α) (l : Nat) :
    (s.value ≠ v → sigSet s v =
      { value := v, listeners := s.listeners, callLog := s.callLog ++ s.listeners }) ∧
    (s.value = v → sigSet s v = s) ∧
    (l ∈ s.listeners → sigSubscribe s l = s) ∧
    (l ∉ s.listeners → (sigSubscribe s l).listeners = s.listeners ++ [l] ∧
      (sigSubscribe s l).value = s.value ∧ (sigSubscribe s l).callLog = s.callLog) ∧
    ((sigUnsub s l).listeners = s.listeners.erase l ∧
      (sigUnsub s l).value = s.value ∧ (sigUnsub s l).callLog = s.callLog) ∧
    (l ∉ s.listeners → sigUnsub (sigSubscribe s l) l = s) := by
  refine ⟨?_, ?_, ?_, ?_, ⟨rfl, rfl, rfl⟩, ?_⟩
  · intro h
    simp [sigSet, h]
  · intro h
    simp [sigSet, h]
  · intro h
    simp [sigSubscribe, h]
  · intro h
    simp [sigSubscribe, h]
  · intro h
    have h1 : sigSubscribe s l = { s with listeners := s.listeners ++ [l] } := by
      simp [sigSubscribe, h]
    rw [h1]
    unfold sigUnsub
    rw [List.erase_append_right _ h, List.erase_cons_head, List.append_nil]

/-- Witness for C6 on a concrete signal: setting a different value fires
listeners 1 and 2 in order, setting the same value is the identity,
re-subscribing 1 is the identity, and subscribing then unsubscribing 3
restores the signal. -/
theorem signal_contract_witness :
    sigSet (Sig.mk 0 [1, 2] []) 5 = Sig.mk 5 [1, 2] [1, 2] ∧
    sigSet (Sig.mk 0 [1, 2] []) 0 = Sig.mk 0 [1, 2] [] ∧
    sigSubscribe (Sig.mk 0 [1, 2] []) 1 = Sig.mk 0 [1, 2] [] ∧
    sigUnsub (sigSubscribe (Sig.mk 0 [1, 2] []) 3) 3 = Sig.mk 0 [1, 2] [] := by
  rcases signal_contract (Sig.mk (0 : Nat) [1, 2] []) 5 1 with ⟨h1, _, h3, _, _, _⟩
  rcases signal_contract (Sig.mk (0 : Nat) [1, 2] []) 0 3 with ⟨_, h2, _, _, _, h6⟩
  exact ⟨h1 (by decide), h2 rfl, h3 (by decide), h6 (by decide)⟩

/-- C5: reading the same nested object property of a store twice with no
intervening replacement returns reference-equal wrapper objects (and the
second read leaves the process state exactly as the first read left it):
the first read either returns the cached wrapper or builds and caches one,
and the second read hits the cache under the same raw address. -/
theorem nested_read_identity_stable (n m : Nat) (st : Sys) (i : Nat) (k : String)
    (s : StoreSt) (a : Nat) (fields : List (String × JSVal))
    (hfresh : HeapFresh st)
    (hs : getIdx st.stores i = some s)
    (hp : lookupK s.props k = some true)
    (hv : lookupK s.internal k = some (JSVal.vobj a))
    (hh : lookupK st.heap a = some (HObj.plainObj fields)) :
    readStoreProp (m + 1) (readStoreProp (n + 1) st i k).2 i k = readStoreProp (n + 1) st i k := by
  have hread : readStoreProp (n + 1) st i k = makeReactive (n + 1) st i (JSVal.vobj a) := by
    simp [readStoreProp, hs, hp, hv]
  cases hc : lookupK st.cache a with
  | some w =>
    have h1 : makeReactive (n + 1) st i (JSVal.vobj a) = (JSVal.vobj w, st) := by
      simp [makeReactive, hh, hc]
    rw [hread, h1]
    show readStoreProp (m + 1) st i k = (JSVal.vobj w, st)
    have h2 : makeReactive (m + 1) st i (JSVal.vobj a) = (JSVal.vobj w, st) := by
      simp [makeReactive, hh, hc]
    simp [readStoreProp, hs, hp, hv, h2]
  | none =>
    have ha : a < st.nextAddr := hfresh (a, HObj.plainObj fields) (lookupK_mem hh)
    have hane : a ≠ st.nextAddr := Nat.ne_of_lt ha
    have h1 : makeReactive (n + 1) st i (JSVal.vobj a) =
        (JSVal.vobj st.nextAddr,
         { st with
            heap := (st.nextAddr,
              HObj.wrapperObj i (fields.map (fun kv => (kv.1, WProp.mk (isNestedVal st kv.2) kv.2)))) :: st.heap,
            nextAddr := st.nextAddr + 1,
            cache := (a, st.nextAddr) :: st.cache }) := by
      simp [makeReactive, hh, hc]
    rw [hread, h1]
    have hh2 : lookupK ((st.nextAddr,
        HObj.wrapperObj i (fields.map (fun kv => (kv.1, WProp.mk (isNestedVal st kv.2) kv.2)))) :: st.heap) a
        = some (HObj.plainObj fields) := by
      rw [lookupK_cons_ne _ _ hane]
      exact hh
    have hc2 : lookupK ((a, st.nextAddr) :: st.cache) a = some st.nextAddr :=
      lookupK_cons_self a st.nextAddr st.cache
    simp [readStoreProp, hs, hp, hv, makeReactive, hh2, hc2]

/-- Witness for C5: on the concrete nested store, two consecutive reads of
`user` return the same wrapper and state. -/
theorem nested_read_identity_stable_witness :
    HeapFresh stNest ∧
    readStoreProp 3 (readStoreProp 3 stNest 0 "user").2 0 "user" = readStoreProp 3 stNest 0 "user" :=
  ⟨by decide,
   nested_read_identity_stable 2 2 stNest 0 "user"
     (StoreSt.mk [("user", JSVal.vobj 0)] [("user", true)] 0 0 [7] []) 0
     [("nm", JSVal.vstr "John")] (by decide) (by decide) (by decide) (by decide) (by decide)⟩

/-- C1 fails on the code: with one subscriber (listener 7), one effective
write inside one outermost `batch` delivers exactly one notification, but
two writes deliver two, and two writes split across a nested inner batch
also deliver two --- one per write, not one per batch.  Each `markUpdated`
call hands `scheduleUpdate` a freshly evaluated closure, so the pending
set's reference-identity dedup never collapses two writes, and the flush
runs one version bump and one `signal.set` per write. -/
theorem batch_notifies_once_per_write :
    (runProg stAB [Instr.bbegin, Instr.swrite 0 "a" (JSVal.vnum 1),
        Instr.bend]).stores.map StoreSt.fires = [[7]] ∧
    (runProg stAB [Instr.bbegin, Instr.swrite 0 "a" (JSVal.vnum 1),
        Instr.swrite 0 "b" (JSVal.vnum 2), Instr.bend]).stores.map StoreSt.fires = [[7, 7]] ∧
    (runProg stAB [Instr.bbegin, Instr.swrite 0 "a" (JSVal.vnum 1), Instr.bbegin,
        Instr.swrite 0 "b" (JSVal.vnum 2), Instr.bend,
        Instr.bend]).stores.map StoreSt.fires = [[7, 7]] := by
  refine ⟨by decide, by decide, by decide⟩

/-- C2 fails on the code in its notification half: `$merge({a:1, b:2})` on
the two-key store updates both values (readable through the store
accessors afterwards) but delivers two notifications to the single
subscriber --- one per merged key --- because the batch wrapped around the
per-key assignments flushes one pending closure per key. -/
theorem merge_notifies_once_per_key :
    (runProg stAB [Instr.smerge 0 [("a", JSVal.vnum 1),
        ("b", JSVal.vnum 2)]]).stores.map StoreSt.fires = [[7, 7]] ∧
    (readStoreProp 3 (runProg stAB [Instr.smerge 0 [("a", JSVal.vnum 1),
        ("b", JSVal.vnum 2)]]) 0 "a").1 = JSVal.vnum 1 ∧
    (readStoreProp 3 (runProg stAB [Instr.smerge 0 [("a", JSVal.vnum 1),
        ("b", JSVal.vnum 2)]]) 0 "b").1 = JSVal.vnum 2 := by
  refine ⟨by decide, by decide, by decide⟩

/-- C3 counterexample: wrap the object at address 0, whose key `k` held
null at wrap time; assign the plain nested mapping at address 1 through
the wrapper's setter; the getter then returns the raw reference (address
1, still a plain object) unwrapped, although the current value is a plain
nested mapping --- it does not return what `makeReactive` on the current
value returns. -/
theorem getter_skips_rewrap_counterexample :
    stC3w.1 = JSVal.vobj 2 ∧
    (readWrapperProp 5 stC3b 2 "k").1 = JSVal.vobj 1 ∧
    isNestedVal stC3b (JSVal.vobj 1) = true ∧
    lookupK stC3b.heap 1 = some (HObj.plainObj [("q", JSVal.vnum 1)]) ∧
    (readWrapperProp 5 stC3b 2 "k").1 ≠ (makeReactive 5 stC3b 0 (JSVal.vobj 1)).1 := by
  refine ⟨by decide, by decide, by decide, by decide, by decide⟩

/-- C3 amended: for every key of an object wrapped by `makeReactive`, the
installed getter re-wraps the captured current value through
`makeReactive` exactly when the value held at wrap time was a plain
nested mapping (in which case this also applies to any value assigned
later); for a key whose wrap-time value was not a plain nested mapping
(primitive, null, array, date or pattern) the getter returns the captured
current value unwrapped --- even after a plain nested mapping has been
assigned to it through the setter. -/
theorem getter_rewraps_only_wraptime_nested (n : Nat) (st stB : Sys) (root a W : Nat)
    (fields : List (String × JSVal)) (k : String) (v0 : JSVal)
    (hh : lookupK st.heap a = some (HObj.plainObj fields))
    (hc : lookupK st.cache a = none)
    (hk : lookupK fields k = some v0)
    (hres : makeReactive (n + 1) st root (JSVal.vobj a) = (JSVal.vobj W, stB)) :
    (isNestedVal st v0 = false →
      (∀ m, readWrapperProp m stB W k = (v0, stB)) ∧
      (∀ (w : JSVal) (m : Nat),
        readWrapperProp m (writeWrapperProp stB W k w) W k = (w, writeWrapperProp stB W k w))) ∧
    (isNestedVal st v0 = true →
      (∀ m, readWrapperProp m stB W k = makeReactive m stB root v0) ∧
      (∀ (w : JSVal) (m : Nat),
        readWrapperProp m (writeWrapperProp stB W k w) W k
          = makeReactive m (writeWrapperProp stB W k w) root w)) := by
  have hcomp : makeReactive (n + 1) st root (JSVal.vobj a) =
      (JSVal.vobj st.nextAddr,
       { st with
          heap := (st.nextAddr,
            HObj.wrapperObj root (fields.map (fun kv => (kv.1, WProp.mk (isNestedVal st kv.2) kv.2)))) :: st.heap,
          nextAddr := st.nextAddr + 1,
          cache := (a, st.nextAddr) :: st.cache }) := by
    simp [makeReactive, hh, hc]
  rw [hcomp] at hres
  have hW : W = st.nextAddr := (JSVal.vobj.inj (congrArg Prod.fst hres)).symm
  have hstB : stB =
      { st with
         heap := (st.nextAddr,
           HObj.wrapperObj root (fields.map (fun kv => (kv.1, WProp.mk (isNestedVal st kv.2) kv.2)))) :: st.heap,
         nextAddr := st.nextAddr + 1,
         cache := (a, st.nextAddr) :: st.cache } := (congrArg Prod.snd hres).symm
  subst hW
  subst hstB
  have hkw : lookupK (fields.map (fun kv => (kv.1, WProp.mk (isNestedVal st kv.2) kv.2))) k
      = some (WProp.mk (isNestedVal st v0) v0) := by
    rw [lookupK_map (fun _ v => WProp.mk (isNestedVal st v) v) fields k, hk]
    rfl
  constructor
  · intro hfalse
    rw [hfalse] at hkw
    constructor
    · intro m
      simp [readWrapperProp, lookupK_cons_self, hkw]
    · intro w m
      by_cases hcase : v0 = w
      · subst hcase
        have hnoop : writeWrapperProp
            ({ st with
               heap := (st.nextAddr,
                 HObj.wrapperObj root (fields.map (fun kv => (kv.1, WProp.mk (isNestedVal st kv.2) kv.2)))) :: st.heap,
               nextAddr := st.nextAddr + 1,
               cache := (a, st.nextAddr) :: st.cache }) st.nextAddr k v0 =
            ({ st with
               heap := (st.nextAddr,
                 HObj.wrapperObj root (fields.map (fun kv => (kv.1, WProp.mk (isNestedVal st kv.2) kv.2)))) :: st.heap,
               nextAddr := st.nextAddr + 1,
               cache := (a, st.nextAddr) :: st.cache }) := by
          simp [writeWrapperProp, lookupK_cons_self, hkw]
        rw [hnoop]
        simp [readWrapperProp, lookupK_cons_self, hkw]
      · have hwrite : writeWrapperProp
            ({ st with
               heap := (st.nextAddr,
                 HObj.wrapperObj root (fields.map (fun kv => (kv.1, WProp.mk (isNestedVal st kv.2) kv.2)))) :: st.heap,
               nextAddr := st.nextAddr + 1,
               cache := (a, st.nextAddr) :: st.cache }) st.nextAddr k w =
            markUpdated
              ({ st with
                 heap := (st.nextAddr,
                     HObj.wrapperObj root
                       (updateK (fields.map (fun kv => (kv.1, WProp.mk (isNestedVal st kv.2) kv.2))) k
                         (WProp.mk false w))) ::
                   (st.nextAddr,
                     HObj.wrapperObj root (fields.map (fun kv => (kv.1, WProp.mk (isNestedVal st kv.2) kv.2)))) ::
                   st.heap,
                 nextAddr := st.nextAddr + 1,
                 cache := (a, st.nextAddr) :: st.cache }) root := by
          simp [writeWrapperProp, lookupK_cons_self, hkw, hcase]
        rw [hwrite]
        have hprops2 : lookupK
            (updateK (fields.map (fun kv => (kv.1, WProp.mk (isNestedVal st kv.2) kv.2))) k
              (WProp.mk false w)) k = some (WProp.mk false w) :=
          lookupK_updateK_self (WProp.mk false w) hkw
        have hheapW : lookupK (markUpdated
            ({ st with
               heap := (st.nextAddr,
                   HObj.wrapperObj root
                     (updateK (fields.map (fun kv => (kv.1, WProp.mk (isNestedVal st kv.2) kv.2))) k
                       (WProp.mk false w))) ::
                 (st.nextAddr,
                   HObj.wrapperObj root (fields.map (fun kv => (kv.1, WProp.mk (isNestedVal st kv.2) kv.2)))) ::
                 st.heap,
               nextAddr := st.nextAddr + 1,
               cache := (a, st.nextAddr) :: st.cache }) root).heap st.nextAddr
            = some (HObj.wrapperObj root
                (updateK (fields.map (fun kv => (kv.1, WProp.mk (isNestedVal st kv.2) kv.2))) k
                  (WProp.mk false w))) := by
          rw [(markUpdated_mem _ root).1]
          exact lookupK_cons_self _ _ _
        simp [readWrapperProp, hheapW, hprops2]
  · intro htrue
    rw [htrue] at hkw
    constructor
    · intro m
      simp [readWrapperProp, lookupK_cons_self, hkw]
    · intro w m
      by_cases hcase : v0 = w
      · subst hcase
        have hnoop : writeWrapperProp
            ({ st with
               heap := (st.nextAddr,
                 HObj.wrapperObj root (fields.map (fun kv => (kv.1, WProp.mk (isNestedVal st kv.2) kv.2)))) :: st.heap,
               nextAddr := st.nextAddr + 1,
               cache := (a, st.nextAddr) :: st.cache }) st.nextAddr k v0 =
            ({ st with
               heap := (st.nextAddr,
                 HObj.wrapperObj root (fields.map (fun kv => (kv.1, WProp.mk (isNestedVal st kv.2) kv.2)))) :: st.heap,
               nextAddr := st.nextAddr + 1,
               cache := (a, st.nextAddr) :: st.cache }) := by
          simp [writeWrapperProp, lookupK_cons_self, hkw]
        rw [hnoop]
        simp [readWrapperProp, lookupK_cons_self, hkw]
      · obtain ⟨old, hv0⟩ : ∃ old, v0 = JSVal.vobj old := by
          cases v0 with
          | vobj o => exact ⟨o, rfl⟩
          | vundef => simp [isNestedVal] at htrue
          | vnull => simp [isNestedVal] at htrue
          | vbool b => simp [isNestedVal] at htrue
          | vnum q => simp [isNestedVal] at htrue
          | vstr q => simp [isNestedVal] at htrue
        subst hv0
        have hwrite : writeWrapperProp
            ({ st with
               heap := (st.nextAddr,
                 HObj.wrapperObj root (fields.map (fun kv => (kv.1, WProp.mk (isNestedVal st kv.2) kv.2)))) :: st.heap,
               nextAddr := st.nextAddr + 1,
               cache := (a, st.nextAddr) :: st.cache }) st.nextAddr k w =
            markUpdated
              ({ st with
                 heap := (st.nextAddr,
                     HObj.wrapperObj root
                       (updateK (fields.map (fun kv => (kv.1, WProp.mk (isNestedVal st kv.2) kv.2))) k
                         (WProp.mk true w))) ::
                   (st.nextAddr,
                     HObj.wrapperObj root (fields.map (fun kv => (kv.1, WProp.mk (isNestedVal st kv.2) kv.2)))) ::
                   st.heap,
                 nextAddr := st.nextAddr + 1,
                 cache := eraseK ((a, st.nextAddr) :: st.cache) old }) root := by
          simp [writeWrapperProp, lookupK_cons_self, hkw, hcase]
        rw [hwrite]
        have hprops2 : lookupK
            (updateK (fields.map (fun kv => (kv.1, WProp.mk (isNestedVal st kv.2) kv.2))) k
              (WProp.mk true w)) k = some (WProp.mk true w) :=
          lookupK_updateK_self (WProp.mk true w) hkw
        have hheapW : lookupK (markUpdated
            ({ st with
               heap := (st.nextAddr,
                   HObj.wrapperObj root
                     (updateK (fields.map (fun kv => (kv.1, WProp.mk (isNestedVal st kv.2) kv.2))) k
                       (WProp.mk true w))) ::
                 (st.nextAddr,
                   HObj.wrapperObj root (fields.map (fun kv => (kv.1, WProp.mk (isNestedVal st kv.2) kv.2)))) ::
                 st.heap,
               nextAddr := st.nextAddr + 1,
               cache := eraseK ((a, st.nextAddr) :: st.cache) old }) root).heap st.nextAddr
            = some (HObj.wrapperObj root
                (updateK (fields.map (fun kv => (kv.1, WProp.mk (isNestedVal st kv.2) kv.2))) k
                  (WProp.mk true w))) := by
          rw [(markUpdated_mem _ root).1]
          exact lookupK_cons_self _ _ _
        simp [readWrapperProp, hheapW, hprops2]

/-- Witness for the amended C3: on the concrete wrap of the object whose
key `k` was null at wrap time, after assigning the plain nested mapping at
address 1 the getter returns that raw reference itself, unwrapped. -/
theorem getter_rewraps_only_wraptime_nested_witness :
    readWrapperProp 0 stC3b 2 "k" = (JSVal.vobj 1, stC3b) :=
  ((getter_rewraps_only_wraptime_nested 4 stC3 stC3w.2 0 0 2 [("k", JSVal.vnull)] "k" JSVal.vnull
      (by decide) (by decide) (by decide) (by decide)).1 (by decide)).2 (JSVal.vobj 1) 0

theorem getIdx_mem {α : Type} : ∀ {l : List α} {i : Nat} {a : α}, getIdx l i = some a → a ∈ l := by
  intro l
  induction l with
  | nil => intro i a h; simp [getIdx] at h
  | cons x t ih =>
    intro i a h
    cases i with
    | zero =>
      simp [getIdx] at h
      exact h ▸ List.mem_cons_self _ _
    | succ q => exact List.mem_cons_of_mem _ (ih h)

theorem makeReactive_sched : ∀ (fuel : Nat) (st : Sys) (root : Nat) (v : JSVal),
    (makeReactive fuel st root v).2.stores = st.stores ∧
    (makeReactive fuel st root v).2.globalUid = st.globalUid ∧
    (makeReactive fuel st root v).2.uidLog = st.uidLog := by
  intro fuel
  induction fuel with
  | zero => intro st root v; exact ⟨rfl, rfl, rfl⟩
  | succ fl ih =>
    intro st root v
    cases v with
    | vundef => exact ⟨rfl, rfl, rfl⟩
    | vnull => exact ⟨rfl, rfl, rfl⟩
    | vbool b => exact ⟨rfl, rfl, rfl⟩
    | vnum q => exact ⟨rfl, rfl, rfl⟩
    | vstr q => exact ⟨rfl, rfl, rfl⟩
    | vobj a =>
      cases hh : lookupK st.heap a with
      | none => simp [makeReactive, hh]
      | some obj =>
        cases obj with
        | plainObj fields =>
          cases hc : lookupK st.cache a with
          | some w => simp [makeReactive, hh, hc]
          | none => simp [makeReactive, hh, hc]
        | arrObj => simp [makeReactive, hh]
        | dateObj => simp [makeReactive, hh]
        | regexpObj => simp [makeReactive, hh]
        | wrapperObj srcRoot sprops =>
          cases hc : lookupK st.cache a with
          | some w => simp [makeReactive, hh, hc]
          | none =>
            have hfold := foldl_inv
              (wrapStep (fun s r2 v2 => makeReactive fl s r2 v2) srcRoot)
              (fun acc => acc.2.stores = st.stores ∧ acc.2.globalUid = st.globalUid ∧
                acc.2.uidLog = st.uidLog)
              (by
                intro b kp hb
                rcases hb with ⟨h1, h2, h3⟩
                unfold wrapStep
                by_cases hn : kp.2.nested
                · rcases ih b.2 srcRoot kp.2.cur with ⟨g1, g2, g3⟩
                  simp only [hn, if_true]
                  exact ⟨by rw [g1, h1], by rw [g2, h2], by rw [g3, h3]⟩
                · simp only [hn, if_false]
                  exact ⟨h1, h2, h3⟩)
              sprops ([], st) ⟨rfl, rfl, rfl⟩
            rcases hfold with ⟨f1, f2, f3⟩
            simp only [makeReactive, hh, hc]
            exact ⟨f1, f2, f3⟩

theorem goodUid_of_eq {st1 st2 : Sys} (h1 : st2.stores = st1.stores)
    (h2 : st2.globalUid = st1.globalUid) (h3 : st2.uidLog = st1.uidLog)
    (hg : GoodUid st1) : GoodUid st2 := by
  unfold GoodUid at *
  rw [h1, h2, h3]
  exact hg

theorem goodUid_uidLog_append (st : Sys) (hg : GoodUid st) :
    (st.uidLog ++ [st.globalUid + 1]).Pairwise (· < ·) ∧
    (∀ x ∈ st.uidLog ++ [st.globalUid + 1], x ≤ st.globalUid + 1) := by
  rcases hg with ⟨hp, hb, _⟩
  constructor
  · rw [List.pairwise_append]
    refine ⟨hp, List.pairwise_singleton _ _, ?_⟩
    intro x hx y hy
    rw [List.mem_singleton] at hy
    subst hy
    exact Nat.lt_succ_of_le (hb x hx)
  · intro x hx
    rcases List.mem_append.mp hx with h | h
    · exact Nat.le_succ_of_le (hb x h)
    · rw [List.mem_singleton] at h
      subst h
      exact Nat.le_refl _

theorem goodUid_runUpd (st : Sys) (i : Nat) (hg : GoodUid st) : GoodUid (runUpd st i) := by
  rcases goodUid_uidLog_append st hg with ⟨hp2, hb2⟩
  rcases hg with ⟨hp, hb, hst⟩
  cases hs : getIdx st.stores i with
  | none =>
    simp only [runUpd, hs]
    unfold signalSet
    have hx : getIdx ({ st with globalUid := st.globalUid + 1, uidLog := st.uidLog ++ [st.globalUid + 1] } : Sys).stores i = none := hs
    rw [hx]
    exact ⟨hp2, hb2, fun s2 hmem => ⟨Nat.le_succ_of_le (hst s2 hmem).1, Nat.le_succ_of_le (hst s2 hmem).2⟩⟩
  | some s =>
    have hsig : s.sigValue ≤ st.globalUid := (hst s (getIdx_mem hs)).2
    simp only [runUpd, hs]
    unfold signalSet
    have hidx2 : getIdx (setIdx st.stores i ({ s with stateId := st.globalUid + 1 })) i
        = some ({ s with stateId := st.globalUid + 1 }) := getIdx_setIdx_self _ hs
    have hx : getIdx ({ st with globalUid := st.globalUid + 1, uidLog := st.uidLog ++ [st.globalUid + 1], stores := setIdx st.stores i ({ s with stateId := st.globalUid + 1 }) } : Sys).stores i = some ({ s with stateId := st.globalUid + 1 }) := hidx2
    rw [hx]
    have hne : ({ s with stateId := st.globalUid + 1 } : StoreSt).sigValue ≠ st.globalUid + 1 := by
      show s.sigValue ≠ st.globalUid + 1
      exact Nat.ne_of_lt (Nat.lt_succ_of_le hsig)
    have hfalse2 : (({ s with stateId := st.globalUid + 1 } : StoreSt).sigValue = st.globalUid + 1) = False :=
      eq_false hne
    simp only [hfalse2, if_false]
    refine ⟨hp2, hb2, ?_⟩
    intro t hmem
    rcases mem_setIdx hmem with h1 | h1
    · rcases mem_setIdx h1 with h2 | h2
      · exact ⟨Nat.le_succ_of_le (hst t h2).1, Nat.le_succ_of_le (hst t h2).2⟩
      · subst h2
        exact ⟨Nat.le_refl _, Nat.le_succ_of_le hsig⟩
    · subst h1
      exact ⟨Nat.le_refl _, Nat.le_refl _⟩

theorem runUpd_char (st : Sys) (i : Nat) (s : StoreSt) (hg : GoodUid st)
    (hs : getIdx st.stores i = some s) :
    (runUpd st i).globalUid = st.globalUid + 1 ∧
    (runUpd st i).uidLog = st.uidLog ++ [st.globalUid + 1] ∧
    (∀ x ∈ st.uidLog, x < st.globalUid + 1) ∧
    getIdx (runUpd st i).stores i =
      some ({ s with stateId := st.globalUid + 1, sigValue := st.globalUid + 1, fires := s.fires ++ s.listeners }) ∧
    s.stateId < st.globalUid + 1 ∧ s.sigValue < st.globalUid + 1 := by
  rcases hg with ⟨hp, hb, hst⟩
  have hbounds := hst s (getIdx_mem hs)
  simp only [runUpd, hs]
  unfold signalSet
  have hidx2 : getIdx (setIdx st.stores i ({ s with stateId := st.globalUid + 1 })) i
      = some ({ s with stateId := st.globalUid + 1 }) := getIdx_setIdx_self _ hs
  have hx : getIdx ({ st with globalUid := st.globalUid + 1, uidLog := st.uidLog ++ [st.globalUid + 1], stores := setIdx st.stores i ({ s with stateId := st.globalUid + 1 }) } : Sys).stores i = some ({ s with stateId := st.globalUid + 1 }) := hidx2
  rw [hx]
  have hne : ({ s with stateId := st.globalUid + 1 } : StoreSt).sigValue ≠ st.globalUid + 1 := by
    show s.sigValue ≠ st.globalUid + 1
    exact Nat.ne_of_lt (Nat.lt_succ_of_le hbounds.2)
  have hfalse2 : (({ s with stateId := st.globalUid + 1 } : StoreSt).sigValue = st.globalUid + 1) = False :=
    eq_false hne
  simp only [hfalse2, if_false]
  refine ⟨trivial, trivial, fun x hx2 => Nat.lt_succ_of_le (hb x hx2), ?_,
    Nat.lt_succ_of_le hbounds.1, Nat.lt_succ_of_le hbounds.2⟩
  exact getIdx_setIdx_self _ hidx2

theorem goodUid_scheduleUpdate (st : Sys) (cid i : Nat) (hg : GoodUid st) :
    GoodUid (scheduleUpdate st cid i) := by
  unfold scheduleUpdate
  split
  · split
    · exact hg
    · exact goodUid_of_eq rfl rfl rfl hg
  · exact goodUid_runUpd st i hg

theorem goodUid_markUpdated (st : Sys) (i : Nat) (hg : GoodUid st) :
    GoodUid (markUpdated st i) := by
  unfold markUpdated
  exact goodUid_scheduleUpdate _ _ _ (goodUid_of_eq rfl rfl rfl hg)

theorem goodUid_flushUpdates (st : Sys) (hg : GoodUid st) : GoodUid (flushUpdates st) := by
  unfold flushUpdates
  split
  · exact hg
  · exact foldl_inv _ GoodUid (fun b p hb => goodUid_runUpd b p.2 hb) st.pending
      { st with pending := [] } (goodUid_of_eq rfl rfl rfl hg)

theorem goodUid_batchEnter (st : Sys) (hg : GoodUid st) : GoodUid (batchEnter st) :=
  goodUid_of_eq rfl rfl rfl hg

theorem goodUid_batchExit (st : Sys) (hg : GoodUid st) : GoodUid (batchExit st) := by
  unfold batchExit
  dsimp only
  split
  · exact goodUid_flushUpdates _ (goodUid_of_eq rfl rfl rfl hg)
  · exact goodUid_of_eq rfl rfl rfl hg

theorem goodUid_setStores (st : Sys) (i : Nat) (s s2 : StoreSt)
    (hs : getIdx st.stores i = some s) (hid : s2.stateId = s.stateId)
    (hsig : s2.sigValue = s.sigValue) (hg : GoodUid st)
    (heap2 : List (Nat × HObj)) (cache2 : List (Nat × Nat)) (next2 : Nat) :
    GoodUid { st with heap := heap2, cache := cache2, nextAddr := next2,
                      stores := setIdx st.stores i s2 } := by
  rcases hg with ⟨hp, hb, hst⟩
  refine ⟨hp, hb, ?_⟩
  intro t hmem
  rcases mem_setIdx hmem with h1 | h1
  · exact hst t h1
  · subst h1
    rw [hid, hsig]
    exact hst s (getIdx_mem hs)

theorem goodUid_writeStoreProp (st : Sys) (i : Nat) (k : String) (v : JSVal)
    (hg : GoodUid st) : GoodUid (writeStoreProp st i k v) := by
  unfold writeStoreProp
  dsimp only
  split
  · exact hg
  case h_2 s hs =>
    split
    · exact hg
    case h_2 nested hpk =>
      split
      · exact hg
      · apply goodUid_markUpdated
        cases nested with
        | false =>
          exact goodUid_setStores st i s ({ s with internal := updateK s.internal k v }) hs rfl rfl hg
            st.heap st.cache st.nextAddr
        | true =>
          cases hov : (lookupK s.internal k).getD JSVal.vundef with
          | vobj old =>
            exact goodUid_setStores st i s ({ s with internal := updateK s.internal k v }) hs rfl rfl hg
              st.heap (eraseK st.cache old) st.nextAddr
          | vundef =>
            exact goodUid_setStores st i s ({ s with internal := updateK s.internal k v }) hs rfl rfl hg
              st.heap st.cache st.nextAddr
          | vnull =>
            exact goodUid_setStores st i s ({ s with internal := updateK s.internal k v }) hs rfl rfl hg
              st.heap st.cache st.nextAddr
          | vbool b =>
            exact goodUid_setStores st i s ({ s with internal := updateK s.internal k v }) hs rfl rfl hg
              st.heap st.cache st.nextAddr
          | vnum q =>
            exact goodUid_setStores st i s ({ s with internal := updateK s.internal k v }) hs rfl rfl hg
              st.heap st.cache st.nextAddr
          | vstr q =>
            exact goodUid_setStores st i s ({ s with internal := updateK s.internal k v }) hs rfl rfl hg
              st.heap st.cache st.nextAddr

theorem goodUid_writeWrapperProp (st : Sys) (a : Nat) (k : String) (v : JSVal)
    (hg : GoodUid st) : GoodUid (writeWrapperProp st a k v) := by
  unfold writeWrapperProp
  dsimp only
  split
  case h_1 root props heq =>
    split
    case h_1 p hp =>
      split
      · exact hg
      · rcases p with ⟨pn, pc⟩
        cases pn with
        | false =>
          apply goodUid_markUpdated
          exact goodUid_of_eq rfl rfl rfl hg
        | true =>
          cases pc with
          | vobj old =>
            apply goodUid_markUpdated
            exact goodUid_of_eq rfl rfl rfl hg
          | vundef =>
            apply goodUid_markUpdated
            exact goodUid_of_eq rfl rfl rfl hg
          | vnull =>
            apply goodUid_markUpdated
            exact goodUid_of_eq rfl rfl rfl hg
          | vbool b =>
            apply goodUid_markUpdated
            exact goodUid_of_eq rfl rfl rfl hg
          | vnum q =>
            apply goodUid_markUpdated
            exact goodUid_of_eq rfl rfl rfl hg
          | vstr q =>
            apply goodUid_markUpdated
            exact goodUid_of_eq rfl rfl rfl hg
    case h_2 => exact hg
  all_goals exact hg

theorem goodUid_readStoreProp (fuel : Nat) (st : Sys) (i : Nat) (k : String)
    (hg : GoodUid st) : GoodUid (readStoreProp fuel st i k).2 := by
  unfold readStoreProp
  dsimp only
  split
  · exact hg
  case h_2 s hs =>
    split
    · exact hg
    case h_2 nested hpk =>
      cases nested with
      | false => exact hg
      | true =>
        rcases makeReactive_sched fuel st i ((lookupK s.internal k).getD JSVal.vundef)
          with ⟨h1, h2, h3⟩
        exact goodUid_of_eq h1 h2 h3 hg

theorem goodUid_readWrapperProp (fuel : Nat) (st : Sys) (a : Nat) (k : String)
    (hg : GoodUid st) : GoodUid (readWrapperProp fuel st a k).2 := by
  unfold readWrapperProp
  split
  case h_1 root props heq =>
    split
    case h_1 p hp =>
      cases hn : p.nested with
      | false => exact hg
      | true =>
        rcases makeReactive_sched fuel st root p.cur with ⟨h1, h2, h3⟩
        exact goodUid_of_eq h1 h2 h3 hg
    case h_2 => exact hg
  all_goals exact hg

theorem goodUid_mergeStore (st : Sys) (i : Nat) (kvs : List (String × JSVal))
    (hg : GoodUid st) : GoodUid (mergeStore st i kvs) := by
  unfold mergeStore batchRun
  apply goodUid_batchExit
  exact foldl_inv _ GoodUid (fun b kv hb => goodUid_writeStoreProp b i kv.1 kv.2 hb)
    kvs (batchEnter st) (goodUid_batchEnter st hg)

theorem goodUid_runInstr (st : Sys) (ins : Instr) (hg : GoodUid st) :
    GoodUid (runInstr st ins) := by
  cases ins with
  | swrite i k v => exact goodUid_writeStoreProp st i k v hg
  | wwrite a k v => exact goodUid_writeWrapperProp st a k v hg
  | sread i k => exact goodUid_readStoreProp getterFuel st i k hg
  | wread a k => exact goodUid_readWrapperProp getterFuel st a k hg
  | supdate i => exact goodUid_markUpdated st i hg
  | smerge i kvs => exact goodUid_mergeStore st i kvs hg
  | bbegin => exact goodUid_batchEnter st hg
  | bend => exact goodUid_batchExit st hg

/-- C9: the version-id discipline is strictly increasing for every store
in the process: under the uid invariant (strictly increasing allocation
log, all logged ids and all store version fields at most the counter),
every client program preserves the invariant, and every delivered update
(the closure `markUpdated` schedules, run as `runUpd`) allocates the fresh
id `globalUid + 1`, strictly greater than every previously produced id and
than the target store's current STATE_ID tag and signal value, and writes
it into both. -/
theorem version_ids_strictly_increasing (st : Sys) (hg : GoodUid st) :
    (∀ p, GoodUid (runProg st p)) ∧
    (∀ (i : Nat) (s : StoreSt), getIdx st.stores i = some s →
      (runUpd st i).globalUid = st.globalUid + 1 ∧
      (runUpd st i).uidLog = st.uidLog ++ [st.globalUid + 1] ∧
      (∀ x ∈ st.uidLog, x < st.globalUid + 1) ∧
      getIdx (runUpd st i).stores i =
        some ({ s with stateId := st.globalUid + 1, sigValue := st.globalUid + 1, fires := s.fires ++ s.listeners }) ∧
      s.stateId < st.globalUid + 1 ∧ s.sigValue < st.globalUid + 1) := by
  constructor
  · intro p
    exact foldl_inv runInstr GoodUid (fun b ins hb => goodUid_runInstr b ins hb) p st hg
  · intro i s hs
    exact runUpd_char st i s hg hs

/-- Witness for C9: the concrete two-key store satisfies the invariant,
it still satisfies it after a program mixing batched writes, merges and
forced updates, and a delivered update on it allocates id 1. -/
theorem version_ids_strictly_increasing_witness :
    GoodUid stAB ∧
    GoodUid (runProg stAB [Instr.bbegin, Instr.swrite 0 "a" (JSVal.vnum 1),
      Instr.bend, Instr.smerge 0 [("b", JSVal.vnum 2)], Instr.supdate 0]) ∧
    (runUpd stAB 0).globalUid = 1 :=
  ⟨by decide,
   (version_ids_strictly_increasing stAB (by decide)).1
     [Instr.bbegin, Instr.swrite 0 "a" (JSVal.vnum 1), Instr.bend,
      Instr.smerge 0 [("b", JSVal.vnum 2)], Instr.supdate 0],
   ((version_ids_strictly_increasing stAB (by decide)).2 0 storeAB (by decide)).1⟩

theorem spreadMerge_lookup (initial r : List (String × JSVal)) (k : String) (v0 : JSVal)
    (hk : lookupK initial k = some v0) :
    lookupK (spreadMerge initial r) k = some ((lookupK r k).getD v0) := by
  unfold spreadMerge
  apply lookupK_append_left
  rw [lookupK_map (fun q v => (lookupK r q).getD v) initial k, hk]
  rfl

theorem getIdx_append_length {α : Type} : ∀ (l : List α) (x : α),
    getIdx (l ++ [x]) l.length = some x := by
  intro l
  induction l with
  | nil => intro x; rfl
  | cons a t ih => intro x; exact ih x

/-- C7: when persistence is enabled, the backend is reachable and holds a
truthy blob that deserializes to the mapping `m`, `createStore` builds the
store over the shallow merge of `m` over `initialState` with restored keys
winning: construction reports no errors, the new store's `internalState`
is the spread merge, and every top-level key whose wrap-time initial value
was not a nested object reads back its restored value when `m` has the
key, and its initial value otherwise. -/
theorem restore_then_override (st : Sys) (initial m : List (String × JSVal))
    (b : PBackend) (cfg : PCfg) (blob : String)
    (hen : cfg.enabled = true) (hav : b.available = true)
    (hget : b.getItem cfg.key = .ok (some blob)) (hblob : blob ≠ "")
    (hdes : cfg.deserialize blob = .ok m) :
    (createStoreModel st initial b cfg).2 = [] ∧
    getIdx (createStoreModel st initial b cfg).1.stores st.stores.length =
      some ({ internal := spreadMerge initial m,
              props := initial.map (fun kv => (kv.1, isNestedVal st kv.2)),
              stateId := 0, sigValue := 0, listeners := [], fires := [] } : StoreSt) ∧
    (∀ (k : String) (v0 : JSVal) (n : Nat),
      lookupK initial k = some v0 → isNestedVal st v0 = false →
      (readStoreProp n (createStoreModel st initial b cfg).1 st.stores.length k).1
        = (lookupK m k).getD v0) := by
  have hbody : restoreBody b cfg = .ok (some m) := by
    unfold restoreBody
    simp only [hget]
    rw [if_neg hblob]
    simp only [hdes]
  have hrest : runRestore b cfg = (some m, []) := by
    unfold runRestore
    rw [hen, hav, hbody]
    rfl
  have hmodel : createStoreModel st initial b cfg =
      (mkStore st initial (some m), []) := by
    unfold createStoreModel
    rw [hrest]
  have hstore : getIdx (mkStore st initial (some m)).stores st.stores.length =
      some ({ internal := spreadMerge initial m,
              props := initial.map (fun kv => (kv.1, isNestedVal st kv.2)),
              stateId := 0, sigValue := 0, listeners := [], fires := [] } : StoreSt) := by
    unfold mkStore
    exact getIdx_append_length st.stores _
  refine ⟨by rw [hmodel], by rw [hmodel]; exact hstore, ?_⟩
  intro k v0 n hk hleaf
  rw [hmodel]
  have hprops : lookupK (initial.map (fun kv => (kv.1, isNestedVal st kv.2))) k
      = some false := by
    rw [lookupK_map (fun _ v => isNestedVal st v) initial k, hk]
    simp [hleaf]
  have hint : lookupK (spreadMerge initial m) k = some ((lookupK m k).getD v0) :=
    spreadMerge_lookup initial m k v0 hk
  simp [readStoreProp, hstore, hprops, hint]

/-- Witness for C7: storage holding the snapshot `count = 5` and initial
state `count = 0, name = "x"` yield a store that reads back `count = 5`
and `name = "x"` with no persistence errors. -/
theorem restore_then_override_witness :
    (createStoreModel sys0 demoInitial demoBackend demoCfg).2 = [] ∧
    (readStoreProp 1 (createStoreModel sys0 demoInitial demoBackend demoCfg).1 0 "count").1
      = JSVal.vnum 5 ∧
    (readStoreProp 1 (createStoreModel sys0 demoInitial demoBackend demoCfg).1 0 "name").1
      = JSVal.vstr "x" := by
  have h := restore_then_override sys0 demoInitial [("count", JSVal.vnum 5)]
    demoBackend demoCfg "five" rfl rfl rfl (by decide) rfl
  refine ⟨h.1, ?_, ?_⟩
  · have h2 := h.2.2 "count" (JSVal.vnum 0) 1 (by decide) (by decide)
    exact h2.trans (by decide)
  · have h2 := h.2.2 "name" (JSVal.vstr "x") 1 (by decide) (by decide)
    exact h2.trans (by decide)

/-- C8: every failure on a persistence path is caught at the boundary and
routed to `onError` (the returned error list) instead of propagating: a
throwing restore body yields a constructed store with no restored state
and the error logged; a throwing save body logs the error; a throwing
`removeItem` in `$clearPersist` logs the error; an unavailable backend
degrades every path to a silent no-op; and the store state produced by a
write followed by the persistence save is exactly the write's result,
whatever the backend does --- a persistence failure never blocks or aborts
the state update. -/
theorem persistence_errors_routed (b : PBackend) (cfg : PCfg)
    (internal : List (String × JSVal)) (initKeys : List String)
    (st : Sys) (i : Nat) (k : String) (v : JSVal) :
    (∀ e, restoreBody b cfg = .error e → cfg.enabled = true → b.available = true →
      runRestore b cfg = (none, [e])) ∧
    (∀ r, restoreBody b cfg = .ok r → cfg.enabled = true → b.available = true →
      runRestore b cfg = (r, [])) ∧
    (∀ e, saveBody b cfg internal initKeys = .error e → cfg.enabled = true →
      b.available = true → runSave b cfg internal initKeys = [e]) ∧
    (saveBody b cfg internal initKeys = .ok () →
      runSave b cfg internal initKeys = []) ∧
    (∀ e, b.removeItem cfg.key = .error e → b.available = true →
      runClear b cfg = [e]) ∧
    (b.available = false →
      runRestore b cfg = (none, []) ∧ runSave b cfg internal initKeys = [] ∧
      runClear b cfg = []) ∧
    (writeThenPersist b cfg st i k v initKeys).1 = writeStoreProp st i k v := by
  refine ⟨?_, ?_, ?_, ?_, ?_, ?_, rfl⟩
  · intro e he hen hav
    unfold runRestore
    rw [hen, hav]
    simp only [he]
    rfl
  · intro r hr hen hav
    unfold runRestore
    rw [hen, hav]
    simp only [hr]
    rfl
  · intro e he hen hav
    unfold runSave
    rw [hen, hav]
    simp only [he]
    rfl
  · intro hok
    unfold runSave
    cases hcond : (cfg.enabled && b.available) with
    | false => rfl
    | true =>
      simp only [hok]
      rfl
  · intro e he hav
    unfold runClear
    rw [hav]
    simp only [he]
    rfl
  · intro hav
    unfold runRestore runSave runClear
    rw [hav]
    simp only [Bool.and_false]
    exact ⟨rfl, rfl, rfl⟩

/-- Witness for C8 at the always-throwing backend: the restore, save and
clear paths all return normally with the thrown error routed to the
onError log, and the store state of a write followed by the failing save
is exactly the write's result. -/
theorem persistence_errors_routed_witness :
    runRestore failBackend demoCfg = (none, ["boom"]) ∧
    runSave failBackend demoCfg [("count", JSVal.vnum 0)] ["count"] = ["boom"] ∧
    runClear failBackend demoCfg = ["boom"] ∧
    (writeThenPersist failBackend demoCfg stAB 0 "a" (JSVal.vnum 3) ["a", "b"]).1
      = writeStoreProp stAB 0 "a" (JSVal.vnum 3) := by
  have h := persistence_errors_routed failBackend demoCfg [("count", JSVal.vnum 0)]
    ["count"] stAB 0 "a" (JSVal.vnum 3)
  refine ⟨h.1 "boom" rfl rfl rfl, h.2.2.1 "boom" rfl rfl rfl, h.2.2.2.2.1 "boom" rfl rfl, ?_⟩
  exact (persistence_errors_routed failBackend demoCfg [("count", JSVal.vnum 0)]
    ["a", "b"] stAB 0 "a" (JSVal.vnum 3)).2.2.2.2.2.2
